import Mathlib

/-!
Verification of the `streamy` media-server core: a shallow embedding of
`streamy/server/backend/__init__.py`, `streamy/server/backend/filesystem.py`
and `streamy/server/track.py`, followed by theorems settling the frozen
claims about search, pagination, scanning and byte-range streaming.

Conventions of the embedding:
* Python `str` is Lean `String`; byte strings are `List Nat`.
* Python `int` is Lean `Int` where sign matters, `Nat` where the source
  guarantees non-negativity (sizes, counters).
* Python dictionaries are modelled extensionally as `String → Option α`;
  the catalog enumeration order (`dict.values()`) is modelled as a
  `List α` where an order-sensitive claim needs it.
* Fallible paths (`raise`) become `Except`/`Option` values.
-/

namespace Streamy

/-! ### Character / string primitives mirroring the Python builtins -/

/-- `charsStarts needle hay`: `hay` begins with `needle` (character lists). -/
def charsStarts : List Char → List Char → Bool
  | [], _ => true
  | _ :: _, [] => false
  | a :: as, b :: bs => a == b && charsStarts as bs

/-- `charsContains needle hay`: `needle` occurs contiguously inside `hay`;
this is Python's substring test `needle in hay` on character lists. -/
def charsContains (needle : List Char) : List Char → Bool
  | [] => charsStarts needle []
  | b :: bs => charsStarts needle (b :: bs) || charsContains needle bs

/-- Python's substring operator `needle in hay` on strings. -/
def strIn (needle hay : String) : Bool :=
  charsContains needle.toList hay.toList

/-- Python `str.lower()` (the ASCII case mapping every field and query
in this system uses), via the character list so it reduces in the
kernel. -/
def strLower (s : String) : String :=
  String.mk (s.toList.map Char.toLower)

/-- Python `str.strip()` (whitespace only), on character lists. -/
def pyStrip (s : List Char) : List Char :=
  ((s.dropWhile Char.isWhitespace).reverse.dropWhile Char.isWhitespace).reverse

/-- Value of a nonempty all-digit character list, else `none`. -/
def digitsVal (cs : List Char) : Option Nat :=
  if cs.isEmpty then none
  else if cs.all Char.isDigit then
    some (cs.foldl (fun a c => a * 10 + (c.toNat - 48)) 0)
  else none

/-- Python `int(s)` restricted to the ASCII-decimal core the server ever
sees: optional surrounding whitespace, optional sign, decimal digits.
Returns `none` where CPython raises `ValueError`. -/
def pyInt (s : String) : Option Int :=
  match pyStrip s.toList with
  | '+' :: rest => (digitsVal rest).map (Int.ofNat)
  | '-' :: rest => (digitsVal rest).map (fun n => -(n : Int))
  | rest => (digitsVal rest).map (Int.ofNat)

/-- Helper for `pySplitChar`: accumulates the current field in reverse. -/
def splitCharAux (sep : Char) : List Char → List Char → List (List Char)
  | cur, [] => [cur.reverse]
  | cur, c :: cs =>
      if c == sep then cur.reverse :: splitCharAux sep [] cs
      else splitCharAux sep (c :: cur) cs

/-- Python `s.split(sep)` for a one-character separator: splits at every
occurrence, keeping empty fields (`"".split("-") == [""]`). -/
def pySplitChar (sep : Char) (s : String) : List String :=
  (splitCharAux sep [] s.toList).map String.mk

/-- Characters after the first `'='`, if any. -/
def dropThroughEq : List Char → Option (List Char)
  | [] => none
  | c :: cs => if c == '=' then some cs else dropThroughEq cs

/-- Python `s.split('=', 1)[-1]`: the part after the first `'='`, or the
whole string when no `'='` occurs. -/
def afterEq (s : String) : String :=
  match dropThroughEq s.toList with
  | none => s
  | some r => String.mk r

/-- Helper for `pySplitWs`: current run accumulated in reverse. -/
def splitWsAux : List Char → List Char → List (List Char)
  | cur, [] => if cur.isEmpty then [] else [cur.reverse]
  | cur, c :: cs =>
      if c.isWhitespace then
        if cur.isEmpty then splitWsAux [] cs
        else cur.reverse :: splitWsAux [] cs
      else splitWsAux (c :: cur) cs

/-- Python `s.split()` with no argument: whitespace runs separate fields
and no empty fields are produced. -/
def pySplitWs (s : String) : List String :=
  (splitWsAux [] s.toList).map String.mk

/-! ### Data model (`streamy/utils/abc.py`, `backend/__init__.py`) -/

/-- `AudioMeta` (`utils/abc.py`): common `MediaMeta` fields plus the
audio-only tag fields.  `duration` is irrelevant to every claim and its
float type is not embeddable; it is omitted from the record. -/
structure AudioMeta where
  id     : String
  name   : String
  mime   : String
  album  : Option String := none
  artist : Option String := none
  track  : Option String := none
  deriving DecidableEq, Repr

/-- `VideoMeta` (`utils/abc.py`). -/
structure VideoMeta where
  id      : String
  name    : String
  mime    : String
  comment : Option String := none
  deriving DecidableEq, Repr

/-- `AudioInfo` (`backend/__init__.py`): persisted/catalogued audio unit. -/
structure AudioInfo where
  id      : String
  path    : String
  meta    : AudioMeta
  size    : Nat := 0
  bitrate : Nat := 0
  deriving DecidableEq, Repr

/-- `VideoInfo` (`backend/__init__.py`). -/
structure VideoInfo where
  id      : String
  path    : String
  meta    : VideoMeta
  size    : Nat := 0
  bitrate : Nat := 0
  deriving DecidableEq, Repr

/-- A value stored in the dbm cache: the serialized payload under a
`t_`/`v_` key, kept typed (serialization round-trip is assumed exact). -/
inductive MediaVal where
  | audio (a : AudioInfo)
  | video (v : VideoInfo)
  deriving DecidableEq, Repr

/-- `AudioInfo.from_json` on a stored value; total on well-formed stores
(every `t_` key holds an audio payload). -/
def MediaVal.toAudio : MediaVal → Option AudioInfo
  | .audio a => some a
  | .video _ => none

/-- `VideoInfo.from_json` on a stored value. -/
def MediaVal.toVideo : MediaVal → Option VideoInfo
  | .audio _ => none
  | .video v => some v

/-- `UserSearch` (`backend/__init__.py`). -/
structure UserSearchM where
  q        : String
  limit    : Int := 25
  category : Option String := none
  deriving DecidableEq, Repr

/-- `Record` (`filesystem.py`): ephemeral walk-time record. -/
structure RecordM where
  id       : String
  name     : String
  filepath : String
  deriving DecidableEq, Repr

/-! ### Search (`UserSearch.tags`, `UserSearch.match_categories`,
`FileSystemBackend.search_tracks` / `search_videos`) -/

/-- First-occurrence deduplication.  `UserSearch.tags` builds a Python
`set`, whose iteration order is unspecified; the model fixes the
first-occurrence order (order-sensitive theorems are proved for the
relevant permutations as well). -/
def dedupFirst : List String → List String
  | [] => []
  | t :: ts => t :: (dedupFirst ts).filter (fun u => u ≠ t)

/-- `UserSearch.tags`: lowercase whitespace-split tokens of the query,
as a duplicate-free list standing for the Python set. -/
def tagsOf (q : String) : List String :=
  dedupFirst ((pySplitWs q).map strLower)

/-- `UserSearch.match_categories`: `None` always passes; otherwise the
whitespace tokens of the category string must intersect the backend's
category set. -/
def matchCategories (category : Option String) (cats : List String) : Bool :=
  match category with
  | none => true
  | some c => (pySplitWs c).any (fun t => cats.contains t)

/-- One `any(tag in term for term in items)` step over the *shared*
generator `items`: consume terms until one contains `tag`, returning the
unconsumed remainder on success and `none` when the generator is
exhausted without a match. -/
def consumeMatch (tag : String) : List String → Option (List String)
  | [] => none
  | t :: ts => if strIn tag t then some ts else consumeMatch tag ts

/-- The matching test exactly as the source executes it:
`all(any(tag in term for term in items) for tag in tags)` where `items`
is a single generator shared by every `any`, so each tag only sees the
terms left unconsumed by the previous tags. -/
def tagsMatchCode : List String → List String → Bool
  | [], _ => true
  | tag :: rest, terms =>
      match consumeMatch tag terms with
      | none => false
      | some left => tagsMatchCode rest left

/-- The matching test as the specification words it: every tag is a
substring of at least one of the candidate's (lowercased, present)
terms. -/
def tagsMatchSpec (tags terms : List String) : Bool :=
  tags.all (fun tag => terms.any (fun t => strIn tag t))

/-- `items = (t.lower() for t in terms if t)` for an audio candidate:
the present (non-`None`, non-empty) fields among name/artist/album, in
source order, lowercased. -/
def presentAudioTerms (m : AudioMeta) : List String :=
  ((([some m.name, m.artist, m.album].filterMap id).filter
    (fun t => !t.isEmpty)).map strLower)

/-- Present terms for a video candidate: name/comment. -/
def presentVideoTerms (m : VideoMeta) : List String :=
  ((([some m.name, m.comment].filterMap id).filter
    (fun t => !t.isEmpty)).map strLower)

/-- The accumulation loop of `search_tracks`/`search_videos`, generic in
the candidate type: append a matching candidate, then break once
`limit > 0 ∧ len(results) ≥ limit`. -/
def searchLoop (termsOf : α → List String) (tags : List String)
    (limit : Int) : List α → List α → List α
  | [], acc => acc.reverse
  | t :: ts, acc =>
      let acc' := if tagsMatchCode tags (termsOf t) then t :: acc else acc
      if limit > 0 ∧ (acc'.length : Int) ≥ limit then acc'.reverse
      else searchLoop termsOf tags limit ts acc'

/-- `FileSystemBackend.search_tracks`: category gate, then the matching
loop over the audio catalog in enumeration order. -/
def searchTracksModel (cats : List String) (search : UserSearchM)
    (catalog : List AudioInfo) : List AudioInfo :=
  if !matchCategories search.category cats then []
  else searchLoop (fun t => presentAudioTerms t.meta) (tagsOf search.q)
    search.limit catalog []

/-- `FileSystemBackend.search_videos`. -/
def searchVideosModel (cats : List String) (search : UserSearchM)
    (catalog : List VideoInfo) : List VideoInfo :=
  if !matchCategories search.category cats then []
  else searchLoop (fun t => presentVideoTerms t.meta) (tagsOf search.q)
    search.limit catalog []

/-! ### Byte-range streaming (`streamy/server/track.py`) -/

/-- How a streaming request can fail in `track.py`. -/
inductive RangeErr where
  /-- `HTTPException(416, ...)` raised by `parse_range_header`. -/
  | notSat (header : String)
  /-- `IndexError` from `h[1]` when the header has no `'-'`; it is not a
  `ValueError`, so the `except` clause does not convert it to a 416. -/
  | idx
  deriving DecidableEq, Repr

/-- `header.split('=', 1)[-1].split("-")`. -/
def rangeTokens (header : String) : List String :=
  pySplitChar '-' (afterEq header)

/-- The start index the source computes: `int(h[0]) if h[0] != "" else 0`
(`none` = `ValueError`). -/
def startValOf (header : String) : Option Int :=
  match rangeTokens header with
  | [] => none
  | h0 :: _ => if h0 = "" then some 0 else pyInt h0

/-- The end index the source computes:
`int(h[1]) if h[1] != "" else file_size - 1`; `none` when `int` raises
`ValueError` or `h[1]` does not exist. -/
def endValOf (header : String) (file_size : Nat) : Option Int :=
  match (rangeTokens header).drop 1 with
  | [] => none
  | h1 :: _ => if h1 = "" then some ((file_size : Int) - 1) else pyInt h1

/-- `parse_range_header` (`track.py`): evaluation order preserved — the
start expression runs first (its `ValueError` is caught and becomes a
416), then `h[1]` is accessed (an `IndexError` there escapes uncaught),
then the end expression, then the bounds check. -/
def parse_range_header (header : String) (file_size : Nat) :
    Except RangeErr (Int × Int) :=
  match rangeTokens header with
  | [] => .error .idx
  | [h0] =>
      match (if h0 = "" then some (0 : Int) else pyInt h0) with
      | none => .error (.notSat header)
      | some _ => .error .idx
  | h0 :: h1 :: _ =>
      match (if h0 = "" then some (0 : Int) else pyInt h0) with
      | none => .error (.notSat header)
      | some s =>
          match (if h1 = "" then some ((file_size : Int) - 1) else pyInt h1) with
          | none => .error (.notSat header)
          | some e =>
              if s > e ∨ s < 0 ∨ e > (file_size : Int) - 1 then
                .error (.notSat header)
              else .ok (s, e)

/-- The `while (pos := f.tell()) <= end` loop of `read_chunked_range`:
seek to `pos`, read `min(chunk_size, end + 1 - pos)` bytes per step.  A
read at/after EOF returns zero bytes and leaves the position unchanged,
in which case the Python loop never terminates; the model returns `none`
for that divergence. -/
def read_chunked_range (file : List Nat) (e : Int) (chunk : Nat)
    (pos : Nat) : Option (List (List Nat)) :=
  if h : (pos : Int) ≤ e then
    if hd : ((file.drop pos).take (min (chunk : Int) (e + 1 - pos)).toNat).length = 0
    then none
    else
      match read_chunked_range file e chunk
        (pos + ((file.drop pos).take (min (chunk : Int) (e + 1 - pos)).toNat).length) with
      | none => none
      | some rest =>
          some ((file.drop pos).take (min (chunk : Int) (e + 1 - pos)).toNat :: rest)
  else some []
termination_by (e + 1 - pos).toNat
decreasing_by
  omega

/-- The resolved resource a streaming request serves
(`info` in `streaming_response`). -/
structure StreamInfoM where
  size    : Nat
  bitrate : Nat
  mime    : String
  deriving DecidableEq, Repr

/-- The observable parts of the `StreamingResponse` built by
`streaming_response`: status, the headers the claims mention, and the
chunk sequence (`none` = diverging body loop). -/
structure RespModel where
  status        : Nat
  contentType   : String
  acceptRanges  : String
  contentLength : String
  contentRange  : Option String
  body          : Option (List (List Nat))
  deriving DecidableEq, Repr

/-- `streaming_response` (`track.py`) on the byte-stream branch (the
filesystem backend never hands it a redirect URL): chooses the chunk
size (`info.bitrate or 1024**2`), the default whole-file window with
status 200, and on a Range header re-derives window/status/headers from
`parse_range_header`, whose exception propagates. -/
def streaming_response (file : List Nat) (info : StreamInfoM)
    (range : Option String) : Except RangeErr RespModel :=
  let chunk := if info.bitrate = 0 then 1048576 else info.bitrate
  match range with
  | none =>
      .ok { status := 200, contentType := info.mime, acceptRanges := "bytes",
            contentLength := toString info.size, contentRange := none,
            body := read_chunked_range file ((info.size : Int) - 1) chunk 0 }
  | some h =>
      match parse_range_header h info.size with
      | .error err => .error err
      | .ok (s, e) =>
          .ok { status := 206, contentType := info.mime,
                acceptRanges := "bytes",
                contentLength := toString (e - s + 1),
                contentRange := some ("bytes " ++ toString s ++ "-"
                  ++ toString e ++ "/" ++ toString info.size),
                body := read_chunked_range file e chunk s.toNat }

/-- Resource events observable on the byte-source handle of one
streaming request. -/
inductive StreamEv where
  | openH
  | chunk (data : List Nat)
  | err416
  | closeH
  deriving DecidableEq, Repr

/-- Events produced while a consumer drains the generator returned by
`read_chunked_range`.  The `with f:` block closes the handle when the
generator finishes, and also when the consumer abandons it after
`stopAfter` chunks (the runtime then closes the generator, raising
`GeneratorExit` at the paused `yield`, which exits the `with`).  A
diverging loop consumed to the end never reaches the close. -/
def bodyEvents (chunks : Option (List (List Nat))) (stopAfter : Option Nat) :
    List StreamEv :=
  match chunks, stopAfter with
  | some cs, none => cs.map StreamEv.chunk ++ [StreamEv.closeH]
  | some cs, some k => (cs.take k).map StreamEv.chunk ++ [StreamEv.closeH]
  | none, some k => List.replicate k (StreamEv.chunk []) ++ [StreamEv.closeH]
  | none, none => []

/-- Handle-event trace of one `stream_audio`/`stream_video` request in
which the backend found the id: `stream_track` opens the file, then
`streaming_response` runs.  When `parse_range_header` raises, the
exception propagates out of `streaming_response` with no intervening
`close` — nothing in the source releases the handle on that path. -/
def stream_track_events (file : List Nat) (info : StreamInfoM)
    (range : Option String) (stopAfter : Option Nat) : List StreamEv :=
  let chunk := if info.bitrate = 0 then 1048576 else info.bitrate
  StreamEv.openH ::
    match range with
    | none =>
        bodyEvents (read_chunked_range file ((info.size : Int) - 1) chunk 0)
          stopAfter
    | some h =>
        match parse_range_header h info.size with
        | .error _ => [StreamEv.err416]
        | .ok (s, e) =>
            bodyEvents (read_chunked_range file e chunk s.toNat) stopAfter

/-! ### MetadataStore (`DbmCache`) -/

/-- The dbm store: keys with their stored values, in the store's native
enumeration order (`firstkey`/`nextkey`), modelled as the list order. -/
abbrev StoreM (V : Type) := List (String × V)

/-- The filter-and-window loop of `DbmCache._iter`: `enumerate(items, 0)`
with `continue` below `start = (page-1)*size`, `break` at
`end = page*size`, both checks only when `size > 0`. -/
def iterLoop (start e size : Int) : Nat → List V → List V
  | _, [] => []
  | n, v :: vs =>
      if size > 0 then
        if (n : Int) < start then iterLoop start e size (n + 1) vs
        else if (n : Int) ≥ e then []
        else v :: iterLoop start e size (n + 1) vs
      else v :: iterLoop start e size (n + 1) vs

/-- Python `key.startswith(prefix)` (character-list prefix test). -/
def keyStarts (pfx k : String) : Bool :=
  charsStarts pfx.toList k.toList

/-- The store's values under a kind prefix, in enumeration order:
`(k for k in self.iter_keys() if k.startswith(prefix))` paired with the
lookups `self.cache[key]` the iterator performs. -/
def prefixItems (store : StoreM V) (pfx : String) : List V :=
  (store.filter (fun kv => keyStarts pfx kv.1)).map (fun kv => kv.2)

/-- `DbmCache._iter(page, size, prefix, item)`: keys under the prefix in
enumeration order, windowed by `iterLoop`; each yielded value is parsed
by the caller's `from_json` (kept typed here). -/
def iterWindow (store : StoreM V) (page size : Int) (pfx : String) : List V :=
  iterLoop ((page - 1) * size) (page * size) size 0 (prefixItems store pfx)

/-- `DbmCache.iter_tracks(page, size)`: `_iter` under the `t_` prefix,
parsing each payload as `AudioInfo`. -/
def iter_tracks (store : StoreM MediaVal) (page size : Int) : List AudioInfo :=
  (iterWindow store page size "t_").filterMap MediaVal.toAudio

/-- `DbmCache.iter_videos(page, limit)`. -/
def iter_videos (store : StoreM MediaVal) (page size : Int) : List VideoInfo :=
  (iterWindow store page size "v_").filterMap MediaVal.toVideo

/-- `DbmCache._get`: first value stored under `prefix + id` (dbm keys are
unique; the model reads the first occurrence). -/
def storeGet (store : StoreM V) (key : String) : Option V :=
  (store.find? (fun kv => kv.1 == key)).map (fun kv => kv.2)

/-- `DbmCache.get_track(id)`. -/
def get_track (store : StoreM MediaVal) (id : String) : Option AudioInfo :=
  (storeGet store ("t_" ++ id)).bind MediaVal.toAudio

/-- `DbmCache.get_video(id)`. -/
def get_video (store : StoreM MediaVal) (id : String) : Option VideoInfo :=
  (storeGet store ("v_" ++ id)).bind MediaVal.toVideo

/-! ### Scanner (`FileSystemBackend.__post_init__`, `load_cache`,
`scan_path`, `scan_tracks`/`scan_videos`) -/

/-- The in-memory catalogs (`self.music`, `self.video`) as extensional
dictionaries. -/
structure CatalogM where
  music : String → Option AudioInfo
  video : String → Option VideoInfo

/-- The empty catalogs a fresh `FileSystemBackend` starts from. -/
def CatalogM.empty : CatalogM :=
  { music := fun _ => none, video := fun _ => none }

/-- `self.music[key] = info` for an explicit key. -/
def CatalogM.putMusicAt (c : CatalogM) (key : String) (info : AudioInfo) :
    CatalogM :=
  { c with music := fun k => if k = key then some info else c.music k }

/-- `self.music[info.id] = info`. -/
def CatalogM.putMusic (c : CatalogM) (info : AudioInfo) : CatalogM :=
  c.putMusicAt info.id info

/-- `self.video[key] = info` for an explicit key. -/
def CatalogM.putVideoAt (c : CatalogM) (key : String) (info : VideoInfo) :
    CatalogM :=
  { c with video := fun k => if k = key then some info else c.video k }

/-- `self.video[info.id] = info`. -/
def CatalogM.putVideo (c : CatalogM) (info : VideoInfo) : CatalogM :=
  c.putVideoAt info.id info

/-- `FileSystemBackend.load_cache`: populate the catalogs purely from
the store.  The source iterates `iter_tracks` only — videos are never
loaded on this path. -/
def load_cache (store : StoreM MediaVal) (c : CatalogM) : CatalogM :=
  (iter_tracks store 1 0).foldl CatalogM.putMusic c

/-- `FileSystemBackend.__post_init__` in cache-only mode
(`skip_walk = True`): only `load_cache` runs, starting from the empty
catalogs of a fresh instance. -/
def initSkipWalk (store : StoreM MediaVal) : CatalogM :=
  load_cache store CatalogM.empty

/-- File classification in `scan_path`: the audio extension allow-list
is checked first (`name.endswith(ext)` — the source omits the dot), then
the video one; anything else is skipped. -/
inductive FileKind where
  | audio
  | video
  | skip
  deriving DecidableEq, Repr

/-- Python `name.endswith(ext)` (character-list suffix test). -/
def nameEnds (ext name : String) : Bool :=
  charsStarts ext.toList.reverse name.toList.reverse

/-- Classify one walked file name (`VALID_AUDIO_EXTENSIONS = {'mp3'}`,
`VALID_VIDEO_EXTENSIONS = {'mp4'}`). -/
def classify (name : String) : FileKind :=
  if nameEnds "mp3" name then .audio
  else if nameEnds "mp4" name then .video
  else .skip

/-- State threaded through one `scan_path` pass. -/
structure ScanState where
  catalog    : CatalogM
  store      : StoreM MediaVal
  /-- Number of probe invocations (`ffmpeg.probe` calls) in this pass. -/
  probes     : Nat
  /-- Whether `self.db.flush()` ran at the end of the pass. -/
  flushed    : Bool
  /-- Whether an uncaught probe exception aborted the pass. -/
  aborted    : Bool

/-- `DbmCache.set_track` / `set_video`: upsert under the prefixed key.
dbm overwrites in place; the model appends a fresh pair after deleting
the old one, preserving a unique key per id. -/
def storeSet (store : StoreM V) (key : String) (v : V) : StoreM V :=
  if (store.find? (fun kv => kv.1 == key)).isSome then
    store.map (fun kv => if kv.1 == key then (key, v) else kv)
  else store ++ [(key, v)]

/-- Walk phase of `scan_path` over the walked files (name, joined path)
in walk order: classify, compute the id, and on a store hit load the
record straight into the catalog, otherwise queue the `Record`. -/
def walkPhase (genId : String → String) :
    List (String × String) → CatalogM → StoreM MediaVal →
    (CatalogM × List RecordM × List RecordM)
  | [], c, _ => (c, [], [])
  | (name, fpath) :: rest, c, db =>
      match classify name with
      | .skip => walkPhase genId rest c db
      | .audio =>
          let id := genId fpath
          match get_track db id with
          | some info =>
              walkPhase genId rest (c.putMusicAt id info) db
          | none =>
              let (c', aq, vq) := walkPhase genId rest c db
              (c', ⟨id, name, fpath⟩ :: aq, vq)
      | .video =>
          let id := genId fpath
          match get_video db id with
          | some info =>
              walkPhase genId rest (c.putVideoAt id info) db
          | none =>
              let (c', aq, vq) := walkPhase genId rest c db
              (c', aq, ⟨id, name, fpath⟩ :: vq)

/-- Commit loop `for info in scan_tracks(audio_queue): ...` consuming the
pool results in queue order.  The pool (`pool.map` inside a `with` block
that joins on exit) has already run every probe; iterating the result
generator re-raises the first failure, so commitment stops there and the
exception propagates — earlier results stay committed (the dict and dbm
writes already happened in place). -/
def commitAudio (results : List (Except Unit AudioInfo))
    (c : CatalogM) (db : StoreM MediaVal) :
    CatalogM × StoreM MediaVal × Bool :=
  match results with
  | [] => (c, db, false)
  | .error _ :: _ => (c, db, true)
  | .ok info :: rest =>
      commitAudio rest (c.putMusic info)
        (storeSet db ("t_" ++ info.id) (.audio info))

/-- Video analogue of `commitAudio`. -/
def commitVideo (results : List (Except Unit VideoInfo))
    (c : CatalogM) (db : StoreM MediaVal) :
    CatalogM × StoreM MediaVal × Bool :=
  match results with
  | [] => (c, db, false)
  | .error _ :: _ => (c, db, true)
  | .ok info :: rest =>
      commitVideo rest (c.putVideo info)
        (storeSet db ("v_" ++ info.id) (.video info))

/-- `FileSystemBackend.scan_path` over one root: walk/classify/queue,
then probe every queued audio record (the thread pool runs them all
before the result generator is consumed), commit until the first
failure, likewise for video, and flush only when a queue was nonempty.
An audio-commit failure propagates out of `scan_path`, so the video
queue is then never probed and no flush happens. -/
def scan_path (genId : String → String)
    (probeA : RecordM → Except Unit AudioInfo)
    (probeV : RecordM → Except Unit VideoInfo)
    (files : List (String × String))
    (c : CatalogM) (db : StoreM MediaVal) : ScanState :=
  let (c1, audioQueue, videoQueue) := walkPhase genId files c db
  let aResults := audioQueue.map probeA
  let (c2, db2, aAborted) := commitAudio aResults c1 db
  if aAborted then
    { catalog := c2, store := db2, probes := audioQueue.length,
      flushed := false, aborted := true }
  else
    let vResults := videoQueue.map probeV
    let (c3, db3, vAborted) := commitVideo vResults c2 db2
    if vAborted then
      { catalog := c3, store := db3,
        probes := audioQueue.length + videoQueue.length,
        flushed := false, aborted := true }
    else
      { catalog := c3, store := db3,
        probes := audioQueue.length + videoQueue.length,
        flushed := !audioQueue.isEmpty || !videoQueue.isEmpty,
        aborted := false }

/-! ### Lemmas about the search loop -/

/-- With an empty tag set and a positive limit, the accumulation loop
keeps taking candidates until the limit is reached. -/
lemma searchLoop_nil_pos (termsOf : α → List String) {limit : Int} :
    ∀ (cat acc : List α), 0 < limit → (acc.length : Int) < limit →
      searchLoop termsOf [] limit cat acc =
        acc.reverse ++ cat.take (limit.toNat - acc.length)
  | [], acc, _, _ => by simp [searchLoop]
  | t :: ts, acc, hl, ha => by
      by_cases hstop : (((t :: acc).length : Int) ≥ limit)
      · have hlim : limit.toNat - acc.length = 1 := by
          simp only [List.length_cons] at hstop; omega
        simp only [searchLoop, tagsMatchCode, if_true]
        rw [if_pos (And.intro hl hstop), hlim]
        simp [List.reverse_cons, List.take_succ_cons]
      · have ha' : ((t :: acc).length : Int) < limit := lt_of_not_le hstop
        have hrec := searchLoop_nil_pos termsOf ts (t :: acc) hl ha'
        have hlim : limit.toNat - acc.length =
            (limit.toNat - (t :: acc).length) + 1 := by
          simp only [List.length_cons] at ha' ⊢; omega
        simp only [searchLoop, tagsMatchCode, if_true]
        rw [if_neg (fun h => hstop h.2), hrec, hlim]
        simp [List.take_succ_cons, List.reverse_cons, List.append_assoc]

/-- With an empty tag set and a non-positive (unlimited) limit, the loop
takes the whole catalog. -/
lemma searchLoop_nil_nonpos (termsOf : α → List String) {limit : Int}
    (hl : limit ≤ 0) :
    ∀ (cat acc : List α),
      searchLoop termsOf [] limit cat acc = acc.reverse ++ cat
  | [], acc => by simp [searchLoop]
  | t :: ts, acc => by
      simp only [searchLoop, tagsMatchCode, if_true]
      rw [if_neg (fun h => absurd h.1 (not_lt.mpr hl)),
        searchLoop_nil_nonpos termsOf hl ts (t :: acc)]
      simp

/-! ### Claim C1: tag matching in `search_tracks` / `search_videos` -/

/-- **C1.** The claim says an item is returned iff every query tag is a
case-insensitive substring of at least one of the kind's fields.  The
code instead shares one `items` generator across all tags, so each tag
only searches the fields not yet consumed: a track named `"ab"` (no
artist/album) does not match the query `"a b"` although its name
contains both tags.  The theorem evaluates the code model at this
failing input — the result is empty in either possible iteration order
of the Python tag set, while the claimed field-set test succeeds; the
video search has the same defect. -/
theorem c1_generator_exhaustion_bug :
    searchTracksModel ["host"] { q := "a b", limit := 25, category := none }
      [{ id := "x", path := "/m/ab.mp3",
         meta := { id := "x", name := "ab", mime := "audio/mp3" } }] = []
    ∧ tagsMatchCode ["a", "b"]
        (presentAudioTerms { id := "x", name := "ab", mime := "audio/mp3" }) = false
    ∧ tagsMatchCode ["b", "a"]
        (presentAudioTerms { id := "x", name := "ab", mime := "audio/mp3" }) = false
    ∧ tagsMatchSpec (tagsOf "a b")
        (presentAudioTerms { id := "x", name := "ab", mime := "audio/mp3" }) = true
    ∧ searchVideosModel ["host"] { q := "a b", limit := 25, category := none }
        [{ id := "y", path := "/m/ab.mp4",
           meta := { id := "y", name := "ab", mime := "video/mp4" } }] = []
    ∧ tagsMatchSpec (tagsOf "a b")
        (presentVideoTerms { id := "y", name := "ab", mime := "video/mp4" }) = true := by
  decide

/-! ### Claim C10: an all-whitespace query matches everything -/

/-- **C10.** A query with no non-whitespace characters has an empty tag
set, so every catalog item matches: with a passing category filter,
`search_tracks` (resp. `search_videos`) returns the first `limit` items
of the catalog enumeration when `limit > 0` and the whole catalog when
`limit <= 0`. -/
theorem c10_empty_query_matches_all (cats : List String)
    (search : UserSearchM) (catA : List AudioInfo) (catV : List VideoInfo)
    (hq : pySplitWs search.q = [])
    (hc : matchCategories search.category cats = true) :
    searchTracksModel cats search catA =
      (if 0 < search.limit then catA.take search.limit.toNat else catA)
    ∧ searchVideosModel cats search catV =
      (if 0 < search.limit then catV.take search.limit.toNat else catV) := by
  have htags : tagsOf search.q = [] := by
    simp [tagsOf, hq, dedupFirst]
  constructor
  · rw [searchTracksModel, hc]
    simp only [Bool.not_true, Bool.false_eq_true, if_false, htags]
    by_cases hl : 0 < search.limit
    · rw [searchLoop_nil_pos _ catA [] hl (by simp [hl]), if_pos hl]
      simp
    · rw [searchLoop_nil_nonpos _ (not_lt.mp hl) catA [], if_neg hl]
      simp
  · rw [searchVideosModel, hc]
    simp only [Bool.not_true, Bool.false_eq_true, if_false, htags]
    by_cases hl : 0 < search.limit
    · rw [searchLoop_nil_pos _ catV [] hl (by simp [hl]), if_pos hl]
      simp
    · rw [searchLoop_nil_nonpos _ (not_lt.mp hl) catV [], if_neg hl]
      simp

/-- Witness for C10 at a concrete input: query `"  "` (whitespace only),
limit 2, a three-track audio catalog and a one-video catalog. -/
theorem c10_empty_query_matches_all_witness :
    pySplitWs "  " = []
    ∧ matchCategories none ["host"] = true
    ∧ searchTracksModel ["host"] { q := "  ", limit := 2, category := none }
        [{ id := "1", path := "p1", meta := { id := "1", name := "n1", mime := "m" } },
         { id := "2", path := "p2", meta := { id := "2", name := "n2", mime := "m" } },
         { id := "3", path := "p3", meta := { id := "3", name := "n3", mime := "m" } }] =
        [{ id := "1", path := "p1", meta := { id := "1", name := "n1", mime := "m" } },
         { id := "2", path := "p2", meta := { id := "2", name := "n2", mime := "m" } }] := by
  refine ⟨by decide, by decide, ?_⟩
  have h := (c10_empty_query_matches_all ["host"]
    { q := "  ", limit := 2, category := none }
    [{ id := "1", path := "p1", meta := { id := "1", name := "n1", mime := "m" } },
     { id := "2", path := "p2", meta := { id := "2", name := "n2", mime := "m" } },
     { id := "3", path := "p3", meta := { id := "3", name := "n3", mime := "m" } }]
    [{ id := "v", path := "pv", meta := { id := "v", name := "nv", mime := "m" } }]
    (by decide) (by decide)).1
  simpa using h

/-! ### Claim C8: the category filter -/

/-- **C8.** The claim says an absent (`None`) *or empty* category filter
always passes.  An empty (or all-whitespace) category string has an
empty token set, which intersects nothing, so `match_categories`
returns `False` and the search returns `[]` even for a catalog item the
query matches. -/
theorem c8_empty_category_counterexample :
    matchCategories (some "") ["myhost"] = false
    ∧ searchTracksModel ["myhost"]
        { q := "rock", limit := 25, category := some "" }
        [{ id := "r", path := "/m/r.mp3",
           meta := { id := "r", name := "Rock Anthem", mime := "audio/mp3" } }] = []
    ∧ tagsMatchSpec (tagsOf "rock")
        (presentAudioTerms { id := "r", name := "Rock Anthem", mime := "audio/mp3" }) =
        true := by
  decide

/-- **C8 (amended).** An absent (`None`) category filter always passes;
a *set* category string passes iff one of its whitespace tokens is a
backend category — in particular an empty or whitespace-only category
string never passes.  Whenever the filter fails, both searches return
`[]` for every catalog, i.e. without examining any catalog item. -/
theorem c8_category_filter_amended :
    (∀ cats : List String, matchCategories none cats = true)
    ∧ (∀ (c : String) (cats : List String),
        (matchCategories (some c) cats = true ↔ ∃ t ∈ pySplitWs c, t ∈ cats))
    ∧ (∀ (cats : List String) (search : UserSearchM),
        matchCategories search.category cats = false →
        (∀ catalog : List AudioInfo, searchTracksModel cats search catalog = [])
        ∧ (∀ catalog : List VideoInfo, searchVideosModel cats search catalog = [])) := by
  refine ⟨fun _ => rfl, fun c cats => ?_, fun cats search hf => ?_⟩
  · simp [matchCategories, List.any_eq_true]
  · exact ⟨fun catalog => by rw [searchTracksModel, hf]; rfl,
      fun catalog => by rw [searchVideosModel, hf]; rfl⟩

/-- Witness for C8 (amended) at concrete inputs: the category `"x"`
passes against backend categories `{"x"}`, and a failing filter makes
the track search return `[]` on a nonempty catalog. -/
theorem c8_category_filter_amended_witness :
    matchCategories (some "x") ["x"] = true
    ∧ searchTracksModel ["h"] { q := "rock", limit := 25, category := some "z" }
        [{ id := "r", path := "/m/r.mp3",
           meta := { id := "r", name := "Rock Anthem", mime := "audio/mp3" } }] = [] := by
  refine ⟨(c8_category_filter_amended.2.1 "x" ["x"]).mpr ⟨"x", by decide, by decide⟩, ?_⟩
  exact (c8_category_filter_amended.2.2 ["h"]
    { q := "rock", limit := 25, category := some "z" } (by decide)).1 _

/-! ### Lemmas about the `_iter` window loop -/

/-- When `size <= 0` both window checks are skipped: every item of the
enumeration is yielded, whatever `start` was computed. -/
lemma iterLoop_nonpos {size start e : Int} (hs : size ≤ 0) :
    ∀ (l : List V) (n : Nat), iterLoop start e size n l = l
  | [], _ => rfl
  | v :: vs, n => by
      simp only [iterLoop, if_neg (not_lt.mpr hs)]
      rw [iterLoop_nonpos hs vs (n + 1)]

/-- When `size > 0` the loop keeps exactly the enumeration window
`[start, e)`, position-shifted by the running index `n`. -/
lemma iterLoop_pos {size start e : Int} (hs : 0 < size) (hse : start ≤ e) :
    ∀ (l : List V) (n : Nat),
      iterLoop start e size n l =
        (l.drop (start - n).toNat).take ((e - n).toNat - (start - n).toNat)
  | [], n => by simp [iterLoop]
  | v :: vs, n => by
      simp only [iterLoop, if_pos hs]
      have hcast : ((n + 1 : Nat) : Int) = (n : Int) + 1 := by push_cast; ring
      by_cases h1 : (n : Int) < start
      · rw [if_pos h1, iterLoop_pos hs hse vs (n + 1), hcast]
        have ht : (e - n).toNat - (start - n).toNat
            = (e - ((n : Int) + 1)).toNat - (start - ((n : Int) + 1)).toNat := by
          omega
        have hd : (start - n).toNat = (start - ((n : Int) + 1)).toNat + 1 := by omega
        rw [ht, hd]
        simp only [List.drop_succ_cons]
      · rw [if_neg h1]
        by_cases h2 : (n : Int) ≥ e
        · rw [if_pos h2]
          have ht : (e - n).toNat - (start - n).toNat = 0 := by omega
          rw [ht]
          simp
        · rw [if_neg h2, iterLoop_pos hs hse vs (n + 1), hcast]
          have hd : (start - n).toNat = 0 := by omega
          have hd' : (start - ((n : Int) + 1)).toNat = 0 := by omega
          have ht : (e - n).toNat - (start - n).toNat
              = ((e - ((n : Int) + 1)).toNat - (start - ((n : Int) + 1)).toNat) + 1 := by
            omega
          rw [ht, hd, hd']
          simp [List.take_succ_cons]

/-- Concatenating the `s`-sized chunks of a list of length at most
`k * s` reassembles the list. -/
lemma join_chunks {s : Nat} (hs : 0 < s) :
    ∀ (k : Nat) (l : List α), l.length ≤ k * s →
      ((List.range k).map (fun i => (l.drop (i * s)).take s)).flatten = l
  | 0, l, hl => by
      have : l = [] := List.eq_nil_of_length_eq_zero (by omega)
      simp [this]
  | k + 1, l, hl => by
      rw [List.range_succ_eq_map]
      simp only [List.map_cons, List.map_map, List.flatten_cons, Nat.zero_mul,
        List.drop_zero]
      have hstep : ∀ i : Nat, ((fun i => (l.drop (i * s)).take s) ∘ Nat.succ) i
          = ((l.drop s).drop (i * s)).take s := by
        intro i
        have harith : i * s + s = Nat.succ i * s := by
          rw [Nat.succ_mul]
        simp only [Function.comp_apply, List.drop_drop]
        rw [Nat.add_comm (i * s) s] at harith
        rw [harith]
      have hmap : ((List.range k).map ((fun i => (l.drop (i * s)).take s) ∘ Nat.succ))
          = (List.range k).map (fun i => ((l.drop s).drop (i * s)).take s) :=
        List.map_congr_left (fun i _ => hstep i)
      have hrec : (l.drop s).length ≤ k * s := by
        have hk : (k + 1) * s = k * s + s := by ring
        simp only [List.length_drop]
        omega
      rw [hmap, join_chunks hs k (l.drop s) hrec]
      exact List.take_append_drop s l

/-- `N ≤ ceil(N / s) * s` for positive `s`, with `ceil` as the source's
callers would compute it (`(N + s - 1) / s`). -/
lemma le_ceil_mul {s : Nat} (hs : 0 < s) (N : Nat) :
    N ≤ ((N + s - 1) / s) * s := by
  rcases N with _ | m
  · simp
  · have hdiv : (m + 1 + s - 1) / s = m / s + 1 := by
      have : m + 1 + s - 1 = m + s := by omega
      rw [this, Nat.add_div_right m hs]
    rw [hdiv]
    have h1 := Nat.div_add_mod m s
    have h2 := Nat.mod_lt m hs
    calc m + 1 ≤ s * (m / s) + m % s + 1 := by omega
    _ ≤ s * (m / s) + s := by omega
    _ = (m / s + 1) * s := by ring

/-! ### Claim C7: `_iter` windowing and pagination completeness -/

/-- **C7.** The claim's `size > 0` window and the pagination
completeness both hold, but its reading of `size <= 0` ("everything
from the computed start") is wrong: the code skips *both* window checks
when `size <= 0`, so the computed start is ignored.  With `page = 0`,
`size = -1` the computed start is `(0-1)*(-1) = 1`, so the claim
predicts the one-track store yields nothing from index 1 — the code
yields the track. -/
theorem c7_size_nonpos_counterexample :
    iter_tracks
        [("t_a",
          MediaVal.audio
            { id := "a", path := "pa",
              meta := { id := "a", name := "na", mime := "m" } })] 0 (-1)
      = [{ id := "a", path := "pa",
           meta := { id := "a", name := "na", mime := "m" } }]
    ∧ (((prefixItems
          [("t_a",
            MediaVal.audio
              { id := "a", path := "pa",
                meta := { id := "a", name := "na", mime := "m" } })] "t_"
        ).filterMap MediaVal.toAudio).drop ((((0 : Int) - 1) * (-1)).toNat)) = [] := by
  decide

/-- **C7 (amended).** For `size > 0`, `iterate` yields exactly the
window `[(page-1)*size, page*size)` of the kind-prefix enumeration
(1-indexed page; negative or zero pages yield nothing because the upper
bound is then non-positive); for `size <= 0` it yields the *entire*
prefix enumeration, ignoring the computed start; and for `size > 0`
concatenating pages `1..ceil(N/size)` reproduces the `N` prefix items
exactly, each exactly once. -/
theorem c7_iterate_window_amended :
    (∀ (V : Type) (store : StoreM V) (page size : Int) (pfx : String),
      0 < size →
      iterWindow store page size pfx =
        ((prefixItems store pfx).drop ((page - 1) * size).toNat).take
          ((page * size).toNat - ((page - 1) * size).toNat))
    ∧ (∀ (V : Type) (store : StoreM V) (page size : Int) (pfx : String),
      size ≤ 0 → iterWindow store page size pfx = prefixItems store pfx)
    ∧ (∀ (V : Type) (store : StoreM V) (size : Int) (pfx : String),
      0 < size →
      ((List.range
          (((prefixItems store pfx).length + size.toNat - 1) / size.toNat)).map
        (fun (i : Nat) => iterWindow store ((i : Int) + 1) size pfx)).flatten
        = prefixItems store pfx) := by
  have hwin : ∀ (V : Type) (store : StoreM V) (page size : Int) (pfx : String),
      0 < size →
      iterWindow store page size pfx =
        ((prefixItems store pfx).drop ((page - 1) * size).toNat).take
          ((page * size).toNat - ((page - 1) * size).toNat) := by
    intro V store page size pfx hs
    have hse : (page - 1) * size ≤ page * size := by nlinarith
    rw [iterWindow, iterLoop_pos hs hse (prefixItems store pfx) 0]
    norm_num

  refine ⟨hwin, fun V store page size pfx hs => ?_, fun V store size pfx hs => ?_⟩
  · rw [iterWindow, iterLoop_nonpos hs (prefixItems store pfx) 0]
  · obtain ⟨s, rfl⟩ : ∃ s : Nat, size = (s : Int) :=
      ⟨size.toNat, (Int.toNat_of_nonneg hs.le).symm⟩
    have hs' : 0 < s := by exact_mod_cast hs
    have hpage : ∀ i : Nat,
        iterWindow store ((i : Int) + 1) s pfx =
          ((prefixItems store pfx).drop (i * s)).take s := by
      intro i
      rw [hwin V store ((i : Int) + 1) s pfx hs]
      have ha : (((i : Int) + 1) - 1) * (s : Int) = ((i * s : Nat) : Int) := by
        push_cast
        ring
      have hb : ((i : Int) + 1) * (s : Int) = (((i + 1) * s : Nat) : Int) := by
        push_cast
        ring
      have h1 : ((((i : Int) + 1) - 1) * (s : Int)).toNat = i * s := by
        rw [ha, Int.toNat_natCast]
      have h2 : (((i : Int) + 1) * (s : Int)).toNat
          - ((((i : Int) + 1) - 1) * (s : Int)).toNat = s := by
        rw [ha, hb, Int.toNat_natCast, Int.toNat_natCast, Nat.succ_mul]
        omega
      rw [h2, h1]
    have hmap : ((List.range
        (((prefixItems store pfx).length + (s : Int).toNat - 1) / (s : Int).toNat)).map
          (fun (i : Nat) => iterWindow store ((i : Int) + 1) s pfx))
        = ((List.range
            (((prefixItems store pfx).length + s - 1) / s)).map
          (fun (i : Nat) => ((prefixItems store pfx).drop (i * s)).take s)) := by
      rw [Int.toNat_natCast]
      exact List.map_congr_left (fun i _ => hpage i)
    rw [hmap]
    exact join_chunks hs' _ _ (le_ceil_mul hs' _)

/-- Witness for C7 (amended) at concrete inputs: a three-item store
under prefix `t_`, asking for page 2 of size 2, and the page
concatenation at size 2. -/
theorem c7_iterate_window_amended_witness :
    (0 : Int) < 2
    ∧ iterWindow [("t_1", 1), ("t_2", 2), ("t_3", 3), ("v_4", 4)] 2 2 "t_"
        = ([3] : List Nat)
    ∧ ((List.range 2).map
        (fun (i : Nat) => iterWindow [("t_1", (1 : Nat)), ("t_2", 2), ("t_3", 3), ("v_4", 4)]
          ((i : Int) + 1) 2 "t_")).flatten = [1, 2, 3] := by
  refine ⟨by decide, ?_, ?_⟩
  · have h := c7_iterate_window_amended.1 Nat
      [("t_1", 1), ("t_2", 2), ("t_3", 3), ("v_4", 4)] 2 2 "t_" (by decide)
    rw [h]
    decide
  · have h := c7_iterate_window_amended.2.2 Nat
      [("t_1", 1), ("t_2", 2), ("t_3", 3), ("v_4", 4)] 2 "t_" (by decide)
    have hlen : ((prefixItems [("t_1", (1 : Nat)), ("t_2", 2), ("t_3", 3), ("v_4", 4)]
        "t_").length + (2 : Int).toNat - 1) / (2 : Int).toNat = 2 := by decide
    rw [hlen] at h
    rw [h]
    decide

/-! ### Claim C4: `load_cache` populates only the audio catalog -/

/-- `find?` over a concatenation looks left first. -/
lemma find?_concat (p : β → Bool) : ∀ (l₁ l₂ : List β),
    (l₁ ++ l₂).find? p = match l₁.find? p with
      | some a => some a
      | none => l₂.find? p
  | [], _ => by simp
  | b :: l₁, l₂ => by
      by_cases hb : p b
      · simp [List.find?_cons_of_pos _ hb]
      · simp only [List.cons_append,
          List.find?_cons_of_neg _ (by simpa using hb)]
        exact find?_concat p l₁ l₂

/-- Looking up a key after folding `putMusic` over a record list finds
the last record with that id, else falls through to the base catalog. -/
lemma foldl_putMusic_lookup :
    ∀ (l : List AudioInfo) (c : CatalogM) (k : String),
      (l.foldl CatalogM.putMusic c).music k =
        match l.reverse.find? (fun a => a.id == k) with
        | some a => some a
        | none => c.music k
  | [], c, k => by simp
  | a :: l, c, k => by
      simp only [List.foldl_cons, List.reverse_cons]
      rw [foldl_putMusic_lookup l (c.putMusic a) k, find?_concat]
      cases hf : l.reverse.find? (fun b => b.id == k) with
      | some b => rfl
      | none =>
          by_cases hk : a.id = k
          · have hbeq : (a.id == k) = true := beq_iff_eq.mpr hk
            simp [List.find?, hbeq, CatalogM.putMusic, CatalogM.putMusicAt, hk.symm]
          · have hbeq : (a.id == k) = false := beq_eq_false_iff_ne.mpr hk
            have hk' : ¬(k = a.id) := fun h => hk h.symm
            simp [List.find?, hbeq, CatalogM.putMusic, CatalogM.putMusicAt, hk']

/-- Folding `putMusic` never touches the video catalog. -/
lemma foldl_putMusic_video :
    ∀ (l : List AudioInfo) (c : CatalogM),
      (l.foldl CatalogM.putMusic c).video = c.video
  | [], _ => rfl
  | a :: l, c => foldl_putMusic_video l (c.putMusic a)

/-- **C4.** The claim says cache-only startup fills the catalog for
*every* kind from the store.  `load_cache` iterates `iter_tracks` only:
with a store holding one video record, after `__post_init__` in
`skip_walk` mode the video catalog is still empty although iterating
the store under the video prefix yields that record. -/
theorem c4_load_cache_counterexample :
    (initSkipWalk
      [("v_x",
        MediaVal.video
          { id := "x", path := "px",
            meta := { id := "x", name := "nx", mime := "m" } })]).video "x" = none
    ∧ iter_videos
        [("v_x",
          MediaVal.video
            { id := "x", path := "px",
              meta := { id := "x", name := "nx", mime := "m" } })] 1 0
      = [{ id := "x", path := "px",
           meta := { id := "x", name := "nx", mime := "m" } }] := by
  refine ⟨rfl, by decide⟩

/-- **C4 (amended).** After `load_cache()` (cache-only startup), the
audio catalog contains exactly the records obtained by iterating the
store under the audio prefix — a lookup returns the last iterated
record with that id — while the video catalog is left completely empty:
videos are never loaded from the cache. -/
theorem c4_load_cache_amended (store : StoreM MediaVal) (k : String) :
    (initSkipWalk store).music k =
      (iter_tracks store 1 0).reverse.find? (fun a => a.id == k)
    ∧ (initSkipWalk store).video k = none := by
  constructor
  · rw [initSkipWalk, load_cache, foldl_putMusic_lookup]
    cases hf : (iter_tracks store 1 0).reverse.find? (fun a => a.id == k) with
    | some a => rfl
    | none => rfl
  · rw [initSkipWalk, load_cache]
    exact congrFun (foldl_putMusic_video (iter_tracks store 1 0) CatalogM.empty) k

/-! ### Claim C5: a probe failure aborts the commit loop -/

/-- The committed state after a run of successful results: each is
written to the catalog and the store in order. -/
def commitFold (pre : List AudioInfo) (c : CatalogM) (db : StoreM MediaVal) :
    CatalogM × StoreM MediaVal :=
  pre.foldl
    (fun p info =>
      (p.1.putMusic info, storeSet p.2 ("t_" ++ info.id) (MediaVal.audio info)))
    (c, db)

/-- **C5.** The claim says one probe failure leaves every other queued
record committed and never aborts the pass.  The thread pool does probe
every queued record, but iterating the result generator re-raises the
failure: with queue `[a, b, c]` and the probe failing on `b`, the pass
aborts — `a` is committed, `c` is probed (`probes = 3`) but never
committed, and no flush happens. -/
theorem c5_probe_failure_aborts_counterexample :
    (scan_path (fun p => p)
        (fun r => if r.id = "/1/b.mp3" then Except.error ()
          else Except.ok
            { id := r.id, path := r.filepath,
              meta := { id := r.id, name := r.name, mime := "audio/mp3" } })
        (fun _ => Except.error ())
        [("a.mp3", "/1/a.mp3"), ("b.mp3", "/1/b.mp3"), ("c.mp3", "/1/c.mp3")]
        CatalogM.empty []).aborted = true
    ∧ (scan_path (fun p => p)
        (fun r => if r.id = "/1/b.mp3" then Except.error ()
          else Except.ok
            { id := r.id, path := r.filepath,
              meta := { id := r.id, name := r.name, mime := "audio/mp3" } })
        (fun _ => Except.error ())
        [("a.mp3", "/1/a.mp3"), ("b.mp3", "/1/b.mp3"), ("c.mp3", "/1/c.mp3")]
        CatalogM.empty []).probes = 3
    ∧ (scan_path (fun p => p)
        (fun r => if r.id = "/1/b.mp3" then Except.error ()
          else Except.ok
            { id := r.id, path := r.filepath,
              meta := { id := r.id, name := r.name, mime := "audio/mp3" } })
        (fun _ => Except.error ())
        [("a.mp3", "/1/a.mp3"), ("b.mp3", "/1/b.mp3"), ("c.mp3", "/1/c.mp3")]
        CatalogM.empty []).catalog.music "/1/a.mp3"
      = some
          { id := "/1/a.mp3", path := "/1/a.mp3",
            meta := { id := "/1/a.mp3", name := "a.mp3", mime := "audio/mp3" } }
    ∧ (scan_path (fun p => p)
        (fun r => if r.id = "/1/b.mp3" then Except.error ()
          else Except.ok
            { id := r.id, path := r.filepath,
              meta := { id := r.id, name := r.name, mime := "audio/mp3" } })
        (fun _ => Except.error ())
        [("a.mp3", "/1/a.mp3"), ("b.mp3", "/1/b.mp3"), ("c.mp3", "/1/c.mp3")]
        CatalogM.empty []).catalog.music "/1/c.mp3" = none
    ∧ (scan_path (fun p => p)
        (fun r => if r.id = "/1/b.mp3" then Except.error ()
          else Except.ok
            { id := r.id, path := r.filepath,
              meta := { id := r.id, name := r.name, mime := "audio/mp3" } })
        (fun _ => Except.error ())
        [("a.mp3", "/1/a.mp3"), ("b.mp3", "/1/b.mp3"), ("c.mp3", "/1/c.mp3")]
        CatalogM.empty []).flushed = false := by
  refine ⟨by decide, by decide, by decide, by decide, by decide⟩

/-- **C5 (amended).** Every queued record is probed, but commitment
stops at the first failing result: the results before it are committed
to catalog and store, the failing record and everything after it are
not, and the pass aborts (the exception propagates, skipping the
flush).  Formally: committing `oks ++ error :: rest` commits exactly
`oks` and reports the abort; committing an all-success list commits
everything without aborting; and the commit loop reports an abort
exactly when some result is a failure. -/
theorem c5_commit_aborts_at_first_failure_amended :
    (∀ (pre : List AudioInfo) (err : Unit)
       (rest : List (Except Unit AudioInfo))
       (c : CatalogM) (db : StoreM MediaVal),
      commitAudio (pre.map Except.ok ++ Except.error err :: rest) c db =
        ((commitFold pre c db).1, (commitFold pre c db).2, true))
    ∧ (∀ (pre : List AudioInfo) (c : CatalogM) (db : StoreM MediaVal),
      commitAudio (pre.map Except.ok) c db =
        ((commitFold pre c db).1, (commitFold pre c db).2, false))
    ∧ (∀ (results : List (Except Unit AudioInfo)) (c : CatalogM)
       (db : StoreM MediaVal),
      (commitAudio results c db).2.2 = results.any (fun r => !r.isOk)) := by
  refine ⟨?_, ?_, ?_⟩
  · intro pre
    induction pre with
    | nil => intro err rest c db; rfl
    | cons a pre ih =>
        intro err rest c db
        simp only [List.map_cons, List.cons_append, commitAudio, commitFold,
          List.foldl_cons]
        exact ih err rest (c.putMusic a) (storeSet db ("t_" ++ a.id) (MediaVal.audio a))
  · intro pre
    induction pre with
    | nil => intro c db; rfl
    | cons a pre ih =>
        intro c db
        simp only [List.map_cons, commitAudio, commitFold, List.foldl_cons]
        exact ih (c.putMusic a) (storeSet db ("t_" ++ a.id) (MediaVal.audio a))
  · intro results
    induction results with
    | nil => intro c db; rfl
    | cons r rest ih =>
        intro c db
        cases r with
        | error e => rfl
        | ok info =>
            simp only [commitAudio, List.any_cons, Except.isOk, Bool.not_false,
              Bool.false_or]
            exact ih (c.putMusic info) (storeSet db ("t_" ++ info.id) (MediaVal.audio info))

/-! ### Claim C9: an all-hit scan probes nothing and flushes nothing -/

/-- When every classified file is a store hit, the walk phase queues
nothing, loads each hit into the catalog, and only ever writes
store-derived records. -/
lemma walkPhase_all_hits (genId : String → String) (db : StoreM MediaVal) :
    ∀ (files : List (String × String)) (c : CatalogM),
      (∀ name fpath, (name, fpath) ∈ files →
        (classify name = FileKind.audio → (get_track db (genId fpath)).isSome)
        ∧ (classify name = FileKind.video → (get_video db (genId fpath)).isSome)) →
      (walkPhase genId files c db).2.1 = []
      ∧ (walkPhase genId files c db).2.2 = []
      ∧ (∀ k, (walkPhase genId files c db).1.music k = c.music k
           ∨ (walkPhase genId files c db).1.music k = get_track db k)
      ∧ (∀ k, (walkPhase genId files c db).1.video k = c.video k
           ∨ (walkPhase genId files c db).1.video k = get_video db k)
      ∧ (∀ name fpath, (name, fpath) ∈ files → classify name = FileKind.audio →
          (walkPhase genId files c db).1.music (genId fpath)
            = get_track db (genId fpath))
      ∧ (∀ name fpath, (name, fpath) ∈ files → classify name = FileKind.video →
          (walkPhase genId files c db).1.video (genId fpath)
            = get_video db (genId fpath)) := by
  intro files
  induction files with
  | nil =>
      intro c _
      refine ⟨rfl, rfl, fun k => Or.inl rfl, fun k => Or.inl rfl, ?_, ?_⟩
      all_goals intro name fpath hmem; exact absurd hmem (List.not_mem_nil _)
  | cons hd rest ih =>
      obtain ⟨name, fpath⟩ := hd
      intro c h
      have hh := h name fpath (List.mem_cons_self _ _)
      have hrest : ∀ n2 f2, (n2, f2) ∈ rest →
          (classify n2 = FileKind.audio → (get_track db (genId f2)).isSome)
          ∧ (classify n2 = FileKind.video → (get_video db (genId f2)).isSome) :=
        fun n2 f2 hmem => h n2 f2 (List.mem_cons_of_mem _ hmem)
      cases hcl : classify name with
      | skip =>
          have hred : walkPhase genId ((name, fpath) :: rest) c db
              = walkPhase genId rest c db := by
            simp [walkPhase, hcl]
          obtain ⟨q1, q2, hm, hv, ha, hb⟩ := ih c hrest
          rw [hred]
          refine ⟨q1, q2, hm, hv, ?_, ?_⟩
          · intro n2 f2 hmem hcl2
            rcases List.mem_cons.mp hmem with hfst | htail
            · injection hfst with h1 h2
              rw [h1] at hcl2
              rw [hcl] at hcl2
              cases hcl2
            · exact ha n2 f2 htail hcl2
          · intro n2 f2 hmem hcl2
            rcases List.mem_cons.mp hmem with hfst | htail
            · injection hfst with h1 h2
              rw [h1] at hcl2
              rw [hcl] at hcl2
              cases hcl2
            · exact hb n2 f2 htail hcl2
      | audio =>
          obtain ⟨info, hinfo⟩ := Option.isSome_iff_exists.mp (hh.1 hcl)
          have hred : walkPhase genId ((name, fpath) :: rest) c db
              = walkPhase genId rest (c.putMusicAt (genId fpath) info) db := by
            simp [walkPhase, hcl, hinfo]
          obtain ⟨q1, q2, hm, hv, ha, hb⟩ :=
            ih (c.putMusicAt (genId fpath) info) hrest
          rw [hred]
          have hmus : ∀ k, (walkPhase genId rest
              (c.putMusicAt (genId fpath) info) db).1.music k = c.music k
              ∨ (walkPhase genId rest
                  (c.putMusicAt (genId fpath) info) db).1.music k
                = get_track db k := by
            intro k
            rcases hm k with hk | hk
            · by_cases hid : k = genId fpath
              · right
                subst hid
                rw [hk]
                simp [CatalogM.putMusicAt, hinfo]
              · left
                rw [hk]
                simp [CatalogM.putMusicAt, hid]
            · right; exact hk
          refine ⟨q1, q2, hmus, hv, ?_, ?_⟩
          · intro n2 f2 hmem hcl2
            rcases List.mem_cons.mp hmem with hfst | htail
            · injection hfst with h1 h2
              rw [h2]
              rcases hm (genId fpath) with hk | hk
              · rw [hk]
                simp [CatalogM.putMusicAt, hinfo]
              · rw [hk]
            · exact ha n2 f2 htail hcl2
          · intro n2 f2 hmem hcl2
            rcases List.mem_cons.mp hmem with hfst | htail
            · injection hfst with h1 h2
              rw [h1] at hcl2
              rw [hcl] at hcl2
              cases hcl2
            · exact hb n2 f2 htail hcl2
      | video =>
          obtain ⟨info, hinfo⟩ := Option.isSome_iff_exists.mp (hh.2 hcl)
          have hred : walkPhase genId ((name, fpath) :: rest) c db
              = walkPhase genId rest (c.putVideoAt (genId fpath) info) db := by
            simp [walkPhase, hcl, hinfo]
          obtain ⟨q1, q2, hm, hv, ha, hb⟩ :=
            ih (c.putVideoAt (genId fpath) info) hrest
          rw [hred]
          have hvid : ∀ k, (walkPhase genId rest
              (c.putVideoAt (genId fpath) info) db).1.video k = c.video k
              ∨ (walkPhase genId rest
                  (c.putVideoAt (genId fpath) info) db).1.video k
                = get_video db k := by
            intro k
            rcases hv k with hk | hk
            · by_cases hid : k = genId fpath
              · right
                subst hid
                rw [hk]
                simp [CatalogM.putVideoAt, hinfo]
              · left
                rw [hk]
                simp [CatalogM.putVideoAt, hid]
            · right; exact hk
          refine ⟨q1, q2, hm, hvid, ?_, ?_⟩
          · intro n2 f2 hmem hcl2
            rcases List.mem_cons.mp hmem with hfst | htail
            · injection hfst with h1 h2
              rw [h1] at hcl2
              rw [hcl] at hcl2
              cases hcl2
            · exact ha n2 f2 htail hcl2
          · intro n2 f2 hmem hcl2
            rcases List.mem_cons.mp hmem with hfst | htail
            · injection hfst with h1 h2
              rw [h2]
              rcases hv (genId fpath) with hk | hk
              · rw [hk]
                simp [CatalogM.putVideoAt, hinfo]
              · rw [hk]
            · exact hb n2 f2 htail hcl2

/-- **C9.** Scanning roots whose every classified file already has a
store record invokes the probe capability zero times, commits nothing
new, performs no flush, does not abort, and still populates the catalog
with the stored record of every classified file. -/
theorem c9_all_hit_scan (genId : String → String)
    (probeA : RecordM → Except Unit AudioInfo)
    (probeV : RecordM → Except Unit VideoInfo)
    (files : List (String × String)) (db : StoreM MediaVal)
    (hhit : ∀ name fpath, (name, fpath) ∈ files →
      (classify name = FileKind.audio → (get_track db (genId fpath)).isSome)
      ∧ (classify name = FileKind.video → (get_video db (genId fpath)).isSome)) :
    (scan_path genId probeA probeV files CatalogM.empty db).probes = 0
    ∧ (scan_path genId probeA probeV files CatalogM.empty db).flushed = false
    ∧ (scan_path genId probeA probeV files CatalogM.empty db).aborted = false
    ∧ (∀ name fpath, (name, fpath) ∈ files → classify name = FileKind.audio →
        (scan_path genId probeA probeV files CatalogM.empty db).catalog.music
          (genId fpath) = get_track db (genId fpath))
    ∧ (∀ name fpath, (name, fpath) ∈ files → classify name = FileKind.video →
        (scan_path genId probeA probeV files CatalogM.empty db).catalog.video
          (genId fpath) = get_video db (genId fpath)) := by
  obtain ⟨q1, q2, _, _, ha, hb⟩ :=
    walkPhase_all_hits genId db files CatalogM.empty hhit
  rcases hwp : walkPhase genId files CatalogM.empty db with ⟨c1, aq, vq⟩
  rw [hwp] at q1 q2 ha hb
  simp only at q1 q2
  subst q1
  subst q2
  have hscan : scan_path genId probeA probeV files CatalogM.empty db
      = { catalog := c1, store := db, probes := 0, flushed := false,
          aborted := false } := by
    simp [scan_path, hwp, commitAudio, commitVideo]
  rw [hscan]
  refine ⟨rfl, rfl, rfl, ?_, ?_⟩
  · intro name fpath hmem hcl
    exact ha name fpath hmem hcl
  · intro name fpath hmem hcl
    exact hb name fpath hmem hcl

/-- Witness for C9 at a concrete input: one audio file whose id is
already cached; the scan probes nothing, flushes nothing, and the
catalog serves the stored record. -/
theorem c9_all_hit_scan_witness :
    (scan_path (fun p => p) (fun _ => Except.error ()) (fun _ => Except.error ())
      [("a.mp3", "pa")] CatalogM.empty
      [("t_pa",
        MediaVal.audio
          { id := "pa", path := "pa",
            meta := { id := "pa", name := "a", mime := "m" } })]).probes = 0
    ∧ (scan_path (fun p => p) (fun _ => Except.error ()) (fun _ => Except.error ())
        [("a.mp3", "pa")] CatalogM.empty
        [("t_pa",
          MediaVal.audio
            { id := "pa", path := "pa",
              meta := { id := "pa", name := "a", mime := "m" } })]).flushed = false
    ∧ (scan_path (fun p => p) (fun _ => Except.error ()) (fun _ => Except.error ())
        [("a.mp3", "pa")] CatalogM.empty
        [("t_pa",
          MediaVal.audio
            { id := "pa", path := "pa",
              meta := { id := "pa", name := "a", mime := "m" } })]).catalog.music "pa"
      = get_track
          [("t_pa",
            MediaVal.audio
              { id := "pa", path := "pa",
                meta := { id := "pa", name := "a", mime := "m" } })] "pa" := by
  have h := c9_all_hit_scan (fun p => p)
    (fun _ => Except.error ()) (fun _ => Except.error ())
    [("a.mp3", "pa")]
    [("t_pa",
      MediaVal.audio
        { id := "pa", path := "pa",
          meta := { id := "pa", name := "a", mime := "m" } })]
    (by
      intro name fpath hmem
      rcases List.mem_cons.mp hmem with hfst | htail
      · injection hfst with h1 h2
        subst h1; subst h2
        exact ⟨fun _ => by decide, fun hv => by cases hv⟩
      · exact absurd htail (List.not_mem_nil _))
  exact ⟨h.1, h.2.1, h.2.2.2.1 "a.mp3" "pa" (List.mem_cons_self _ _) (by decide)⟩

/-! ### Claim C3: range-header validation failures -/

/-- `str.split` never returns an empty list. -/
lemma splitCharAux_ne_nil (sep : Char) :
    ∀ (l cur : List Char), splitCharAux sep cur l ≠ []
  | [], cur => by simp [splitCharAux]
  | c :: cs, cur => by
      simp only [splitCharAux]
      by_cases h : c == sep
      · rw [if_pos h]
        exact List.cons_ne_nil _ _
      · rw [if_neg h]
        exact splitCharAux_ne_nil sep cs (c :: cur)

/-- The token list of a Range header is never empty (`h[0]` always
exists). -/
lemma rangeTokens_ne_nil (header : String) : rangeTokens header ≠ [] := by
  rw [rangeTokens, pySplitChar]
  intro h
  exact splitCharAux_ne_nil '-' (afterEq header).toList []
    (by simpa using h)

/-- **C3.** The claim says range validation fails only with
`RangeNotSatisfiable` (416).  A header whose part after `'='` contains
no `'-'` makes `h[1]` raise an `IndexError`, which the
`except ValueError` clause does not catch: `"bytes=100"` escapes as an
uncaught `IndexError`, not a 416. -/
theorem c3_dashless_header_counterexample :
    parse_range_header "bytes=100" 1000 = Except.error RangeErr.idx := by
  rfl

/-- **C3 (amended).** Parsing fails with `RangeNotSatisfiable` iff the
start token is unparsable, or the header contains a `'-'` (at least two
tokens) and the end token is unparsable or the parsed bounds are
invalid (`start > end`, `start < 0`, or `end >= N`); missing start
defaults to 0 and missing end to `N-1`.  When the header lacks a `'-'`
but its start token parses (or is empty), an uncaught `IndexError` is
raised instead of the 416. -/
theorem c3_range_validation_amended (header : String) (N : Nat) :
    (parse_range_header header N = Except.error (RangeErr.notSat header) ↔
      startValOf header = none
      ∨ (2 ≤ (rangeTokens header).length ∧
          (endValOf header N = none
           ∨ ∃ s e : Int, startValOf header = some s ∧ endValOf header N = some e
               ∧ (s > e ∨ s < 0 ∨ e > (N : Int) - 1))))
    ∧ (parse_range_header header N = Except.error RangeErr.idx ↔
        ((rangeTokens header).length = 1 ∧ (startValOf header).isSome)) := by
  rcases htok : rangeTokens header with _ | ⟨h0, rest⟩
  · exact absurd htok (rangeTokens_ne_nil header)
  · have hsv : startValOf header = (if h0 = "" then some (0 : Int) else pyInt h0) := by
      rw [startValOf, htok]
    rcases rest with _ | ⟨h1, rest2⟩
    · have hev : endValOf header N = none := by
        simp [endValOf, htok]
      cases hv : (if h0 = "" then some (0 : Int) else pyInt h0) with
      | none =>
          have hparse : parse_range_header header N
              = Except.error (RangeErr.notSat header) := by
            simp only [parse_range_header, htok, hv]
          simp [hparse, hsv, hev, hv, htok]
      | some sVal =>
          have hparse : parse_range_header header N
              = Except.error RangeErr.idx := by
            simp only [parse_range_header, htok, hv]
          simp [hparse, hsv, hev, hv, htok]
    · have hev : endValOf header N =
          (if h1 = "" then some ((N : Int) - 1) else pyInt h1) := by
        simp [endValOf, htok]
      have hlen : (rangeTokens header).length = rest2.length + 2 := by
        rw [htok]
        simp
      cases hv0 : (if h0 = "" then some (0 : Int) else pyInt h0) with
      | none =>
          have hparse : parse_range_header header N
              = Except.error (RangeErr.notSat header) := by
            simp only [parse_range_header, htok, hv0]
          simp [hparse, hsv, hev, hv0, hlen]
      | some sVal =>
          cases hv1 : (if h1 = "" then some ((N : Int) - 1) else pyInt h1) with
          | none =>
              have hparse : parse_range_header header N
                  = Except.error (RangeErr.notSat header) := by
                simp only [parse_range_header, htok, hv0, hv1]
              simp [hparse, hsv, hev, hv0, hv1, hlen]
          | some eVal =>
              by_cases hcond : sVal > eVal ∨ sVal < 0 ∨ eVal > (N : Int) - 1
              · have hparse : parse_range_header header N
                    = Except.error (RangeErr.notSat header) := by
                  simp only [parse_range_header, htok, hv0, hv1, if_pos hcond]
                rw [htok] at hlen
                constructor
                · rw [hparse]
                  refine ⟨fun _ => Or.inr ⟨by simp, ?_⟩, fun _ => rfl⟩
                  exact Or.inr ⟨sVal, eVal, by rw [hsv, hv0], by rw [hev, hv1], hcond⟩
                · rw [hparse]
                  constructor
                  · intro hbad
                    cases hbad
                  · rintro ⟨hbad, -⟩
                    simp at hbad
              · have hparse : parse_range_header header N
                    = Except.ok (sVal, eVal) := by
                  simp only [parse_range_header, htok, hv0, hv1, if_neg hcond]
                constructor
                · rw [hparse]
                  constructor
                  · intro hbad
                    cases hbad
                  · rintro (hbad | ⟨-, hbad | ⟨s, e, hs, he, hse⟩⟩)
                    · rw [hsv, hv0] at hbad
                      cases hbad
                    · rw [hev, hv1] at hbad
                      cases hbad
                    · rw [hsv, hv0] at hs
                      rw [hev, hv1] at he
                      injection hs with hs
                      injection he with he
                      subst hs
                      subst he
                      exact absurd hse hcond
                · rw [hparse]
                  constructor
                  · intro hbad
                    cases hbad
                  · rintro ⟨hbad, -⟩
                    simp at hbad

/-! ### Claim C2: the streaming response -/

/-- A successful parse means the validated bounds hold. -/
lemma parse_ok_bounds {header : String} {N : Nat} {s e : Int}
    (hp : parse_range_header header N = Except.ok (s, e)) :
    0 ≤ s ∧ s ≤ e ∧ e ≤ (N : Int) - 1 := by
  rcases htok : rangeTokens header with _ | ⟨h0, rest⟩
  · exact absurd htok (rangeTokens_ne_nil header)
  rcases rest with _ | ⟨h1, rest2⟩
  · cases hv : (if h0 = "" then some (0 : Int) else pyInt h0) with
    | none => simp [parse_range_header, htok, hv] at hp
    | some sVal => simp [parse_range_header, htok, hv] at hp
  · cases hv0 : (if h0 = "" then some (0 : Int) else pyInt h0) with
    | none => simp [parse_range_header, htok, hv0] at hp
    | some sVal =>
        cases hv1 : (if h1 = "" then some ((N : Int) - 1) else pyInt h1) with
        | none => simp [parse_range_header, htok, hv0, hv1] at hp
        | some eVal =>
            by_cases hcond : sVal > eVal ∨ sVal < 0 ∨ eVal > (N : Int) - 1
            · simp [parse_range_header, htok, hv0, hv1, if_pos hcond] at hp
            · simp only [parse_range_header, htok, hv0, hv1, if_neg hcond] at hp
              injection hp with hp
              injection hp with hp1 hp2
              subst hp1
              subst hp2
              push_neg at hcond
              exact ⟨hcond.2.1, hcond.1, hcond.2.2⟩

/-- Taking more than the length takes everything: `take` can be
normalized to the clipped count. -/
lemma take_eq_take_min (l : List α) (m : Nat) :
    l.take m = l.take (min m l.length) := by
  rcases le_total m l.length with h | h
  · rw [min_eq_left h]
  · rw [min_eq_right h, List.take_length, List.take_of_length_le h]

/-- Gluing one chunk onto the rest of a window reassembles the whole
window. -/
lemma take_chunk_glue (L : List α) (d M : Nat) (hdM : d ≤ M) :
    L.take d ++ (L.drop d).take (M - d) = L.take M := by
  conv_rhs => rw [show M = d + (M - d) by omega]
  rw [List.take_add]

/-- The read loop of `read_chunked_range` terminates whenever the byte
source really has the bytes (`e < length`) and the chunk size is
positive, and its chunks concatenate to exactly the bytes
`[pos, e]`. -/
lemma read_chunked_range_spec (file : List Nat) (e : Int) (chunk : Nat)
    (hc : 0 < chunk) (he : e < (file.length : Int)) :
    ∀ (fuel pos : Nat), (e + 1 - pos).toNat ≤ fuel → (pos : Int) ≤ e + 1 →
      ∃ cs, read_chunked_range file e chunk pos = some cs ∧
        cs.flatten = (file.drop pos).take (e + 1 - pos).toNat := by
  intro fuel
  induction fuel with
  | zero =>
      intro pos hfuel hpos
      have hnot : ¬((pos : Int) ≤ e) := by omega
      refine ⟨[], ?_, ?_⟩
      · rw [read_chunked_range, dif_neg hnot]
      · have hz : (e + 1 - pos).toNat = 0 := by omega
        rw [hz]
        simp
  | succ fuel ih =>
      intro pos hfuel hpos
      by_cases hle : (pos : Int) ≤ e
      · have hmin : (0 : Int) < min (chunk : Int) (e + 1 - pos) :=
          lt_min (by exact_mod_cast hc) (by omega)
        have hR1 : 1 ≤ (min (chunk : Int) (e + 1 - pos)).toNat := by omega
        have hRM : (min (chunk : Int) (e + 1 - pos)).toNat ≤ (e + 1 - pos).toNat := by
          have := min_le_right (chunk : Int) (e + 1 - pos)
          omega
        have hpos_lt : pos < file.length := by omega
        have hdlen : ((file.drop pos).take
            (min (chunk : Int) (e + 1 - pos)).toNat).length
            = min (min (chunk : Int) (e + 1 - pos)).toNat (file.length - pos) := by
          simp
        have hd1 : ((file.drop pos).take
            (min (chunk : Int) (e + 1 - pos)).toNat).length ≠ 0 := by
          rw [hdlen]
          omega
        obtain ⟨cs, hcs, hjoin⟩ := ih
          (pos + ((file.drop pos).take (min (chunk : Int) (e + 1 - pos)).toNat).length)
          (by rw [hdlen]; omega)
          (by rw [hdlen]; push_cast; omega)
        refine ⟨(file.drop pos).take (min (chunk : Int) (e + 1 - pos)).toNat :: cs,
          ?_, ?_⟩
        · rw [read_chunked_range, dif_pos hle, dif_neg hd1, hcs]
        · rw [List.flatten_cons, hjoin]
          have hdM : ((file.drop pos).take
              (min (chunk : Int) (e + 1 - pos)).toNat).length
              ≤ (e + 1 - (pos : Int)).toNat := by
            rw [hdlen]
            omega
          have h1 : (file.drop pos).drop
              ((file.drop pos).take (min (chunk : Int) (e + 1 - pos)).toNat).length
              = file.drop (pos + ((file.drop pos).take
                  (min (chunk : Int) (e + 1 - pos)).toNat).length) := by
            rw [List.drop_drop]
          have h2 : (e + 1 - ((pos + ((file.drop pos).take
                (min (chunk : Int) (e + 1 - pos)).toNat).length : Nat) : Int)).toNat
              = (e + 1 - (pos : Int)).toNat
                - ((file.drop pos).take
                    (min (chunk : Int) (e + 1 - pos)).toNat).length := by
            push_cast
            omega
          have h3 : (file.drop pos).take (min (chunk : Int) (e + 1 - pos)).toNat
              = (file.drop pos).take
                  ((file.drop pos).take
                    (min (chunk : Int) (e + 1 - pos)).toNat).length := by
            rw [take_eq_take_min (file.drop pos)
              (min (chunk : Int) (e + 1 - pos)).toNat]
            congr 1
            simp [hdlen]
          rw [h2, ← h1, h3]
          simp only [List.length_take, List.length_drop, min_assoc, min_self] at hdM ⊢
          exact take_chunk_glue (file.drop pos) _ _ hdM
      · have hz : (e + 1 - pos).toNat = 0 := by omega
        refine ⟨[], ?_, ?_⟩
        · rw [read_chunked_range, dif_neg hle]
        · rw [hz]
          simp

/-- **C2.** With no Range header the response has status 200 and
`Content-Length = N`; with a valid parsed range `(s, e)` the response
has status 206, `Content-Range: bytes s-e/N`, `Content-Length =
e-s+1`, and a body — built by seeking to `s` and repeatedly reading
`min(chunkSize, e+1-pos)` bytes with `chunkSize = bitrate or 1 MiB` —
whose chunks concatenate to exactly bytes `[s..e]` of the source. -/
theorem c2_streaming_response (file : List Nat) (info : StreamInfoM)
    (hdr : String) (s e : Int)
    (hlen : file.length = info.size)
    (hp : parse_range_header hdr info.size = Except.ok (s, e)) :
    (∃ r, streaming_response file info none = Except.ok r
      ∧ r.status = 200 ∧ r.contentLength = toString info.size)
    ∧ (∃ r chunks, streaming_response file info (some hdr) = Except.ok r
      ∧ r.status = 206
      ∧ r.contentRange = some ("bytes " ++ toString s ++ "-" ++ toString e
          ++ "/" ++ toString info.size)
      ∧ r.contentLength = toString (e - s + 1)
      ∧ r.body = some chunks
      ∧ chunks.flatten = (file.drop s.toNat).take (e - s + 1).toNat) := by
  obtain ⟨hs0, hse, heN⟩ := parse_ok_bounds hp
  have hc : 0 < (if info.bitrate = 0 then 1048576 else info.bitrate) := by
    by_cases hb : info.bitrate = 0
    · rw [if_pos hb]
      omega
    · rw [if_neg hb]
      omega
  constructor
  · exact ⟨_, rfl, rfl, rfl⟩
  · have hlenZ : (file.length : Int) = (info.size : Int) := by
      rw [hlen]
    have he' : e < (file.length : Int) := by omega
    have hsnat : ((s.toNat : Nat) : Int) = s := Int.toNat_of_nonneg hs0
    obtain ⟨cs, hcs, hjoin⟩ := read_chunked_range_spec file e
      (if info.bitrate = 0 then 1048576 else info.bitrate) hc he'
      ((e + 1 - (s.toNat : Int)).toNat) s.toNat le_rfl (by omega)
    have hresp : streaming_response file info (some hdr) =
        Except.ok
          { status := 206, contentType := info.mime,
            acceptRanges := "bytes",
            contentLength := toString (e - s + 1),
            contentRange := some ("bytes " ++ toString s ++ "-"
              ++ toString e ++ "/" ++ toString info.size),
            body := read_chunked_range file e
              (if info.bitrate = 0 then 1048576 else info.bitrate) s.toNat } := by
      simp only [streaming_response, hp]
    refine ⟨_, cs, hresp, rfl, rfl, rfl, hcs, ?_⟩
    rw [hjoin]
    congr 1
    omega

/-- Witness for C2 at a concrete input: a 10-byte source, header
`bytes=2-5`. -/
theorem c2_streaming_response_witness :
    (List.range 10).length = (10 : Nat)
    ∧ parse_range_header "bytes=2-5" 10 = Except.ok (2, 5)
    ∧ ((∃ r, streaming_response (List.range 10)
          { size := 10, bitrate := 4, mime := "audio/mp3" } none = Except.ok r
        ∧ r.status = 200 ∧ r.contentLength = toString (10 : Nat))
      ∧ (∃ r chunks, streaming_response (List.range 10)
            { size := 10, bitrate := 4, mime := "audio/mp3" }
            (some "bytes=2-5") = Except.ok r
        ∧ r.status = 206
        ∧ r.contentRange = some ("bytes " ++ toString (2 : Int) ++ "-"
            ++ toString (5 : Int) ++ "/" ++ toString (10 : Nat))
        ∧ r.contentLength = toString ((5 : Int) - 2 + 1)
        ∧ r.body = some chunks
        ∧ chunks.flatten
            = ((List.range 10).drop (2 : Int).toNat).take ((5 : Int) - 2 + 1).toNat)) := by
  refine ⟨by decide, by rfl, ?_⟩
  exact c2_streaming_response (List.range 10)
    { size := 10, bitrate := 4, mime := "audio/mp3" } "bytes=2-5" 2 5
    (by decide) (by rfl)

/-! ### Claim C6: handle release on every exit path -/

/-- **C6.** The claim says the byte-source handle is closed on every
exit path, including range-validation failure.  On the 416 path the
handle is opened by `stream_track`, then `parse_range_header` raises
before the generator (whose `with f:` block is the only closing code)
is ever created: the event trace of the request is `[open, err416]`,
with no close. -/
theorem c6_leak_on_416_counterexample :
    stream_track_events (List.range 10)
        { size := 10, bitrate := 4, mime := "audio/mp3" }
        (some "bytes=5-20") none
      = [StreamEv.openH, StreamEv.err416]
    ∧ StreamEv.closeH ∉ stream_track_events (List.range 10)
        { size := 10, bitrate := 4, mime := "audio/mp3" }
        (some "bytes=5-20") none := by
  refine ⟨by rfl, by decide⟩

/-- Both body-event shapes end with the close emitted by the `with`
block. -/
lemma closeH_mem_bodyEvents (cs : List (List Nat)) (st : Option Nat) :
    StreamEv.closeH ∈ bodyEvents (some cs) st := by
  cases st <;> simp [bodyEvents]

/-- **C6 (amended).** The handle is closed on normal completion and on
early termination by the consumer — the `with f:` block inside the
generator runs in both cases — for the no-Range request and for every
request whose Range header validates.  On a range-validation failure,
however, the trace is exactly `[open, err416]`: the handle is left open
(only garbage collection would reclaim it). -/
theorem c6_scoped_close_amended (file : List Nat) (info : StreamInfoM)
    (stopAfter : Option Nat) (hlen : file.length = info.size) :
    (StreamEv.closeH ∈ stream_track_events file info none stopAfter)
    ∧ (∀ hdr (s e : Int), parse_range_header hdr info.size = Except.ok (s, e) →
        StreamEv.closeH ∈ stream_track_events file info (some hdr) stopAfter)
    ∧ (∀ hdr err, parse_range_header hdr info.size = Except.error err →
        stream_track_events file info (some hdr) stopAfter
          = [StreamEv.openH, StreamEv.err416]) := by
  have hc : 0 < (if info.bitrate = 0 then 1048576 else info.bitrate) := by
    by_cases hb : info.bitrate = 0
    · rw [if_pos hb]
      omega
    · rw [if_neg hb]
      omega
  have hlenZ : (file.length : Int) = (info.size : Int) := by rw [hlen]
  refine ⟨?_, ?_, ?_⟩
  · obtain ⟨cs, hcs, -⟩ := read_chunked_range_spec file ((info.size : Int) - 1)
      (if info.bitrate = 0 then 1048576 else info.bitrate) hc (by omega)
      (((info.size : Int) - 1 + 1 - ((0 : Nat) : Int)).toNat) 0 le_rfl (by omega)
    simp only [stream_track_events, hcs]
    exact List.mem_cons_of_mem _ (closeH_mem_bodyEvents cs stopAfter)
  · intro hdr s e hp
    obtain ⟨hs0, hse, heN⟩ := parse_ok_bounds hp
    obtain ⟨cs, hcs, -⟩ := read_chunked_range_spec file e
      (if info.bitrate = 0 then 1048576 else info.bitrate) hc (by omega)
      ((e + 1 - ((s.toNat : Nat) : Int)).toNat) s.toNat le_rfl (by omega)
    simp only [stream_track_events, hp, hcs]
    exact List.mem_cons_of_mem _ (closeH_mem_bodyEvents cs stopAfter)
  · intro hdr err hp
    simp only [stream_track_events, hp]

/-- Witness for C6 (amended) at concrete inputs: a 10-byte source,
consumer stopping after one chunk; the valid paths close the handle and
the invalid-range path yields the leaking `[open, err416]` trace. -/
theorem c6_scoped_close_amended_witness :
    (List.range 10).length = (10 : Nat)
    ∧ StreamEv.closeH ∈ stream_track_events (List.range 10)
        { size := 10, bitrate := 4, mime := "audio/mp3" } none (some 1)
    ∧ StreamEv.closeH ∈ stream_track_events (List.range 10)
        { size := 10, bitrate := 4, mime := "audio/mp3" } (some "bytes=2-5") (some 1)
    ∧ stream_track_events (List.range 10)
        { size := 10, bitrate := 4, mime := "audio/mp3" } (some "bytes=5-20") (some 1)
        = [StreamEv.openH, StreamEv.err416] := by
  have h := c6_scoped_close_amended (List.range 10)
    { size := 10, bitrate := 4, mime := "audio/mp3" } (some 1) (by decide)
  exact ⟨by decide, h.1, h.2.1 "bytes=2-5" 2 5 (by rfl),
    h.2.2 "bytes=5-20" (RangeErr.notSat "bytes=5-20") (by rfl)⟩

end Streamy
